import Mathlib

/- Verification development for the hexane repository.

   Embedded code:
   * `src/poc/guards-extractors/route-builder.ts` — the fluent route-pipeline
     builder (middleware / guards / extractors, sealed by `handle`);
   * `src/poc/module-tree/core.ts` — the module-tree resolver
     (`traverseModule` inside `createH3AppFromModule`).

   Modelling conventions:
   * JavaScript side effects are modelled by threading an explicit world
     state `S` through every step function.  A step returns the updated
     state together with either a result or a thrown error; the state
     survives a throw, exactly as the JS heap survives an exception.
   * `async`/`await` sequencing in the source is strictly sequential, so the
     embedding is a plain sequential composition of the steps.
   * The TypeScript tuple `TExtracted` exists only at the type level; the
     runtime value is the homogeneous array `extracted: any[]`.  The
     embedding therefore uses one value type `V` and `List V` for the
     buffered extracted values, as the compiled program does. -/

namespace Hexane

/-- Errors raised during pipeline execution.  A JavaScript exception
`new Error(msg)` is modelled as `js msg`.  The constructor
`extractionFailed` is Modelled from the spec: it is the `ExtractionFailed`
wrapper condition of spec §7, which `route-builder.ts` never constructs
(no definition below ever produces it); it exists only so that the spec's
claim about such a wrapper can be stated against the code. -/
inductive PipeErr where
  | js (msg : String)
  | extractionFailed (cause : PipeErr)
  deriving DecidableEq, Repr

deriving instance DecidableEq for Except

/-- The error `new Error('Guard failed')` thrown by `handle` (route-builder.ts
line 194) when a guard returns a falsy result. -/
def guardFailedErr : PipeErr := PipeErr.js "Guard failed"

/-- Discriminator: is this error an `ExtractionFailed`-tagged condition? -/
def PipeErr.isExtractionFailedTag : PipeErr → Bool
  | .extractionFailed _ => true
  | _ => false

/-- `type Middleware = (event: any) => void | Promise<void>` — runs for
effect; may throw (`some err`) or succeed (`none`). -/
def Middleware (E S : Type) : Type := E → S → S × Option PipeErr

/-- `type Guard = (event: any) => boolean | Promise<boolean>` — yields a
boolean or throws. -/
def Guard (E S : Type) : Type := E → S → S × Except PipeErr Bool

/-- `type Extractor<T> = (event: any) => T | Promise<T>` — yields a value or
throws. -/
def Extractor (E S V : Type) : Type := E → S → S × Except PipeErr V

/-- `type Handler<TExtracted> = (...args: TExtracted) => any` — receives the
buffered extracted values positionally (at runtime, the array
`extracted: any[]`). -/
def Handler (S V A : Type) : Type := List V → S → S × Except PipeErr A

/-- `class RouteBuilder` — the three internal step arrays
(route-builder.ts lines 45-47). -/
structure RouteBuilder (E S V : Type) where
  middlewares : List (Middleware E S)
  guards : List (Guard E S)
  extractors : List (Extractor E S V)

/-- `route()` — a fresh builder with empty step arrays. -/
def route (E S V : Type) : RouteBuilder E S V := ⟨[], [], []⟩

/-- `use(middleware)` — `this.middlewares.push(middleware)` (line 57). -/
def RouteBuilder.use (b : RouteBuilder E S V) (m : Middleware E S) :
    RouteBuilder E S V :=
  { b with middlewares := b.middlewares ++ [m] }

/-- `guard(guard)` — `this.guards.push(guard)` (line 69). -/
def RouteBuilder.guard (b : RouteBuilder E S V) (g : Guard E S) :
    RouteBuilder E S V :=
  { b with guards := b.guards ++ [g] }

/-- `extract(extractor)` — `newBuilder.extractors.push(extractor)`
(lines 118-122).  At runtime this is the same object with one more entry in
`extractors`; only the TypeScript-level tuple parameter changes. -/
def RouteBuilder.extract (b : RouteBuilder E S V) (x : Extractor E S V) :
    RouteBuilder E S V :=
  { b with extractors := b.extractors ++ [x] }

/-- The middleware loop of `handle` (lines 186-188): run each middleware in
array order, stopping at the first thrown error. -/
def runMiddlewares : List (Middleware E S) → E → S → S × Option PipeErr
  | [], _, s => (s, none)
  | m :: ms, e, s =>
    match m e s with
    | (s', none) => runMiddlewares ms e s'
    | (s', some er) => (s', some er)

/-- The guard loop of `handle` (lines 191-196): run each guard in array
order; a guard returning `false` raises `new Error('Guard failed')`; a guard
throwing propagates its own error. -/
def runGuards : List (Guard E S) → E → S → S × Option PipeErr
  | [], _, s => (s, none)
  | g :: gs, e, s =>
    match g e s with
    | (s', Except.ok true) => runGuards gs e s'
    | (s', Except.ok false) => (s', some guardFailedErr)
    | (s', Except.error er) => (s', some er)

/-- The extractor loop of `handle` (lines 199-203): run each extractor in
array order, pushing each value onto `extracted`; a thrown error propagates
with the values collected so far discarded. -/
def runExtractors : List (Extractor E S V) → E → S → S × Except PipeErr (List V)
  | [], _, s => (s, Except.ok [])
  | x :: xs, e, s =>
    match x e s with
    | (s', Except.ok v) =>
      match runExtractors xs e s' with
      | (s'', Except.ok vs) => (s'', Except.ok (v :: vs))
      | (s'', Except.error er) => (s'', Except.error er)
    | (s', Except.error er) => (s', Except.error er)

/-- The request handler returned by `handle(handler)` (lines 183-208).  The
returned closure reads `this.middlewares`, `this.guards`, `this.extractors`
at every invocation; since `use`/`guard`/`extract` mutate those same arrays
in place, the closure's behaviour at an invocation is determined by the
builder's state at that moment.  The embedding makes this explicit: `b` is
the builder state current at the invocation being modelled. -/
def RouteBuilder.handle (b : RouteBuilder E S V) (h : Handler S V A)
    (e : E) (s : S) : S × Except PipeErr A :=
  match runMiddlewares b.middlewares e s with
  | (s1, some er) => (s1, Except.error er)
  | (s1, none) =>
    match runGuards b.guards e s1 with
    | (s2, some er) => (s2, Except.error er)
    | (s2, none) =>
      match runExtractors b.extractors e s2 with
      | (s3, Except.error er) => (s3, Except.error er)
      | (s3, Except.ok vals) => h vals s3

/-- One declaration made on the builder: which method the caller chained. -/
inductive Decl (E S V : Type) where
  | action (m : Middleware E S)
  | guard (g : Guard E S)
  | extract (x : Extractor E S V)

/-- Apply one chained method call to the builder. -/
def applyDecl (b : RouteBuilder E S V) : Decl E S V → RouteBuilder E S V
  | .action m => b.use m
  | .guard g => b.guard g
  | .extract x => b.extract x

/-- The builder obtained by chaining the given declarations, in order, onto
`route()`. -/
def applyDecls (ds : List (Decl E S V)) : RouteBuilder E S V :=
  ds.foldl applyDecl (route E S V)

/-- The Actions (middleware) among the declarations, in declaration order. -/
def actionsOf : List (Decl E S V) → List (Middleware E S)
  | [] => []
  | .action m :: ds => m :: actionsOf ds
  | .guard _ :: ds => actionsOf ds
  | .extract _ :: ds => actionsOf ds

/-- The Guards among the declarations, in declaration order. -/
def guardsOf : List (Decl E S V) → List (Guard E S)
  | [] => []
  | .action _ :: ds => guardsOf ds
  | .guard g :: ds => g :: guardsOf ds
  | .extract _ :: ds => guardsOf ds

/-- The Extractors among the declarations, in declaration order. -/
def extractorsOf : List (Decl E S V) → List (Extractor E S V)
  | [] => []
  | .action _ :: ds => extractorsOf ds
  | .guard _ :: ds => extractorsOf ds
  | .extract x :: ds => x :: extractorsOf ds

/-- Phase-order execution: all middleware, then all guards, then all
extractors, then the handler.  Stated over bare step lists so that theorems
can relate `handle` on an accumulated builder to this description. -/
def phaseRun (ms : List (Middleware E S)) (gs : List (Guard E S))
    (xs : List (Extractor E S V)) (h : Handler S V A)
    (e : E) (s : S) : S × Except PipeErr A :=
  match runMiddlewares ms e s with
  | (s1, some er) => (s1, Except.error er)
  | (s1, none) =>
    match runGuards gs e s1 with
    | (s2, some er) => (s2, Except.error er)
    | (s2, none) =>
      match runExtractors xs e s2 with
      | (s3, Except.error er) => (s3, Except.error er)
      | (s3, Except.ok vals) => h vals s3

/-- A handler that just reports the positional argument list it was called
with; used to state which values a pipeline feeds its handler. -/
def recordingHandler : Handler S V (List V) := fun vals s => (s, Except.ok vals)

end Hexane

namespace ModTree

/- Embedding of `src/poc/module-tree/core.ts`.

   Module instances are identified by `Fin n` (JavaScript object identity:
   the `visited` Set holds module references, so two distinct instances with
   equal contents are distinct ids).  A graph maps each id to its
   definition.  Route and provider entries are opaque (`R`, `P`).

   An entry of the `imports` array is either a module instance or — as in
   the lazy-import idiom `imports: [() => M]` of ADR-0003 — a zero-argument
   function.  `core.ts` contains no `typeof imported === 'function'` test:
   a function entry is passed to `traverseModule` like any object, is not in
   `visited`, and has no `imports`/`routes`/`providers` properties, so it
   contributes nothing and the function is never invoked.  The embedding
   renders this as skipping the entry, which yields the same `visited`
   module set, routes and providers. -/

/-- One entry of a module's `imports` array: a module instance, or a
zero-argument function producing one (a lazy import). -/
inductive MImport (n : Nat) where
  | direct (i : Fin n)
  | lazy (f : Unit → Fin n)

/-- `interface ModuleDefinition` (core.ts lines 35-50), with routes and
providers as opaque entries. -/
structure ModuleDefinition (n : Nat) (R P : Type) where
  name : String
  imports : List (MImport n)
  routes : List R
  providers : List P

/-- A finite module graph: every module id resolves to its definition. -/
def Graph (n : Nat) (R P : Type) : Type := Fin n → ModuleDefinition n R P

/-- The mutable collection state of `createH3AppFromModule`: the `visited`
Set and the `routes` / `providers` output arrays (core.ts lines 90-100).
The JS `Set` is queried only through `has` and extended only through `add`
on an element that `has` rejected, so a duplicate-free list models it
exactly. -/
structure TravState (n : Nat) (R P : Type) where
  visited : List (Fin n)
  routes : List R
  providers : List P
  deriving DecidableEq

/-- The `for (const imported of module.imports)` loop (core.ts lines
103-107), parameterised by the recursive call `trav` used on each resolved
entry.  A lazy (function) entry contributes nothing (see the note above). -/
def traverseImports (trav : Fin n → TravState n R P → Option (TravState n R P)) :
    List (MImport n) → TravState n R P → Option (TravState n R P)
  | [], s => some s
  | im :: ims, s =>
    match im with
    | .lazy _ => traverseImports trav ims s
    | .direct m =>
      match trav m s with
      | none => none
      | some s' => traverseImports trav ims s'

/-- `traverseModule` (core.ts lines 95-118): skip if visited, mark visited,
recurse into imports, then append own routes and providers.  The `fuel`
argument bounds the recursion depth so the function is total on cyclic
graphs; `traverseModule_fuel_adequate` below shows `n + 1` is always
enough, which is the termination argument for the source's unbounded
recursion. -/
def traverseModule (g : Graph n R P) :
    Nat → Fin n → TravState n R P → Option (TravState n R P)
  | 0, _, _ => none
  | fuel + 1, m, s =>
    if m ∈ s.visited then some s
    else
      match traverseImports (fun m' s' => traverseModule g fuel m' s')
          (g m).imports ⟨m :: s.visited, s.routes, s.providers⟩ with
      | none => none
      | some s2 =>
        some ⟨s2.visited, s2.routes ++ (g m).routes,
              s2.providers ++ (g m).providers⟩

/-- The collection phase of `createH3AppFromModule` (core.ts lines 89-121):
`traverseModule(rootModule)` starting from an empty visited set and empty
output arrays.  The h3 app construction that follows only consumes the
collected `routes` and `providers` (spec §6), so the resolver's observable
output is this state.  Fuel `n + 1` suffices for every graph
(`traverseModule_fuel_adequate`). -/
def createH3AppFromModule (g : Graph n R P) (rootModule : Fin n) :
    Option (TravState n R P) :=
  traverseModule g (n + 1) rootModule ⟨[], [], []⟩

/-- Relation used throughout the resolver proofs: running a traversal step
from `s` yields `s'` where exactly the modules `ord` (in flattening order)
were newly flattened: each is fresh, none repeats, `visited` grows by them,
and the `routes` / `providers` arrays grow by exactly their own entries in
that order. -/
def StateGrows (g : Graph n R P) (s s' : TravState n R P)
    (ord : List (Fin n)) : Prop :=
  ord.Nodup ∧ (∀ i ∈ ord, i ∉ s.visited) ∧
  (∀ i, i ∈ s'.visited ↔ i ∈ ord ∨ i ∈ s.visited) ∧
  s'.routes = s.routes ++ ord.flatMap (fun i => (g i).routes) ∧
  s'.providers = s.providers ++ ord.flatMap (fun i => (g i).providers)

/-- Number of module ids not yet in the visited set; the decreasing measure
of the traversal. -/
def unvisitedCount (s : TravState n R P) : Nat :=
  (Finset.univ.filter (fun i => i ∉ s.visited)).card

/-- The same graph with every lazy (function) entry removed from every
`imports` array. -/
def eraseLazy (g : Graph n R P) : Graph n R P := fun i =>
  ⟨(g i).name,
   (g i).imports.filter (fun im => match im with
     | .direct _ => true
     | .lazy _ => false),
   (g i).routes, (g i).providers⟩

/-- Concrete acyclic graph of spec §8: unit `A` (id 0) imports `[B]` and has
routes `[GET /a]`; unit `B` (id 1) imports nothing and has routes
`[GET /b]`. -/
def gAcyclic : Graph 2 String String := fun i =>
  if i = 0 then ⟨"A", [MImport.direct 1], ["GET /a"], []⟩
  else ⟨"B", [], ["GET /b"], []⟩

/-- A two-unit eager cycle with arbitrary payloads: unit 0 (`A`) eagerly
imports unit 1 (`B`) and vice versa. -/
def mkEagerCycle (ra : List R) (pa : List P) (rb : List R) (pb : List P) :
    Graph 2 R P := fun i =>
  if i = 0 then ⟨"A", [MImport.direct 1], ra, pa⟩
  else ⟨"B", [MImport.direct 0], rb, pb⟩

/-- Concrete eager cycle of spec §8: `A.imports = [B]`, `B.imports = [A]`. -/
def gEagerCycle : Graph 2 String String :=
  mkEagerCycle ["GET /a"] [] ["GET /b"] []

/-- Concrete lazy cycle of spec §8: `A.imports = [() => B]` with provider
`P_a`, `B.imports = [() => A]` with provider `P_b`. -/
def gLazyCycle : Graph 2 String String := fun i =>
  if i = 0 then ⟨"A", [MImport.lazy (fun _ => 1)], ["GET /a"], ["P_a"]⟩
  else ⟨"B", [MImport.lazy (fun _ => 0)], ["GET /b"], ["P_b"]⟩

end ModTree

namespace Hexane

/-- Demo action: appends `0` to the log. -/
def demoAction : Middleware Unit (List Nat) := fun _ s => (s ++ [0], none)

/-- Demo action: appends `7` to the log. -/
def demoAction7 : Middleware Unit (List Nat) := fun _ s => (s ++ [7], none)

/-- Demo middleware: appends `9` to the log. -/
def demoMw9 : Middleware Unit (List Nat) := fun _ s => (s ++ [9], none)

/-- Demo guard: appends `5` to the log and returns `false` (fails). -/
def demoFailGuard : Guard Unit (List Nat) := fun _ s => (s ++ [5], Except.ok false)

/-- Demo extractor: appends `1` to the log and yields `10`. -/
def demoExtractor : Extractor Unit (List Nat) Nat :=
  fun _ s => (s ++ [1], Except.ok 10)

/-- Demo extractor: appends `2` to the log and yields `20`. -/
def demoExtractor2 : Extractor Unit (List Nat) Nat :=
  fun _ s => (s ++ [2], Except.ok 20)

/-- Demo extractor that throws `new Error('boom')`. -/
def boomExtractor : Extractor Unit (List Nat) Nat :=
  fun _ s => (s, Except.error (PipeErr.js "boom"))

/-- Demo handler: yields the number of positional arguments it received. -/
def demoHandler : Handler (List Nat) Nat Nat :=
  fun vals s => (s, Except.ok vals.length)

/-- Demo handler that ignores its positional arguments (the TypeScript
idiom `handle(async () => ...)` of type-tests.ts, "TypeScript allows
ignoring parameters") and yields `99`. -/
def constHandler99 : Handler (List Nat) Nat Nat :=
  fun _ s => (s, Except.ok 99)

/-- A pipeline sealed over one extractor; used for the post-seal mutation
scenario. -/
def sealedB : RouteBuilder Unit (List Nat) Nat :=
  applyDecls [Decl.extract demoExtractor]

/-- A pipeline with two extractors; used for the handler-arity scenario. -/
def twoExtractB : RouteBuilder Unit (List Nat) Nat :=
  applyDecls [Decl.extract demoExtractor, Decl.extract demoExtractor2]

end Hexane

namespace Hexane

theorem handle_eq_phaseRun (b : RouteBuilder E S V) (h : Handler S V A)
    (e : E) (s : S) :
    b.handle h e s = phaseRun b.middlewares b.guards b.extractors h e s := rfl

theorem foldl_applyDecl_middlewares (ds : List (Decl E S V))
    (b : RouteBuilder E S V) :
    (ds.foldl applyDecl b).middlewares = b.middlewares ++ actionsOf ds := by
  induction ds generalizing b with
  | nil => simp [actionsOf]
  | cons d ds ih =>
    cases d with
    | action m =>
      simp [applyDecl, RouteBuilder.use, ih, actionsOf, List.append_assoc]
    | guard g => simp [applyDecl, RouteBuilder.guard, ih, actionsOf]
    | extract x => simp [applyDecl, RouteBuilder.extract, ih, actionsOf]

theorem foldl_applyDecl_guards (ds : List (Decl E S V))
    (b : RouteBuilder E S V) :
    (ds.foldl applyDecl b).guards = b.guards ++ guardsOf ds := by
  induction ds generalizing b with
  | nil => simp [guardsOf]
  | cons d ds ih =>
    cases d with
    | action m => simp [applyDecl, RouteBuilder.use, ih, guardsOf]
    | guard g =>
      simp [applyDecl, RouteBuilder.guard, ih, guardsOf, List.append_assoc]
    | extract x => simp [applyDecl, RouteBuilder.extract, ih, guardsOf]

theorem foldl_applyDecl_extractors (ds : List (Decl E S V))
    (b : RouteBuilder E S V) :
    (ds.foldl applyDecl b).extractors = b.extractors ++ extractorsOf ds := by
  induction ds generalizing b with
  | nil => simp [extractorsOf]
  | cons d ds ih =>
    cases d with
    | action m => simp [applyDecl, RouteBuilder.use, ih, extractorsOf]
    | guard g => simp [applyDecl, RouteBuilder.guard, ih, extractorsOf]
    | extract x =>
      simp [applyDecl, RouteBuilder.extract, ih, extractorsOf, List.append_assoc]

theorem applyDecls_middlewares (ds : List (Decl E S V)) :
    (applyDecls ds).middlewares = actionsOf ds := by
  simp [applyDecls, foldl_applyDecl_middlewares, route]

theorem applyDecls_guards (ds : List (Decl E S V)) :
    (applyDecls ds).guards = guardsOf ds := by
  simp [applyDecls, foldl_applyDecl_guards, route]

theorem applyDecls_extractors (ds : List (Decl E S V)) :
    (applyDecls ds).extractors = extractorsOf ds := by
  simp [applyDecls, foldl_applyDecl_extractors, route]

theorem runGuards_append (gs₁ gs₂ : List (Guard E S)) (e : E) (s : S) :
    runGuards (gs₁ ++ gs₂) e s =
      match runGuards gs₁ e s with
      | (s', none) => runGuards gs₂ e s'
      | (s', some er) => (s', some er) := by
  induction gs₁ generalizing s with
  | nil => simp [runGuards]
  | cons g gs ih =>
    simp only [List.cons_append, runGuards]
    rcases g e s with ⟨s', er | b⟩
    · simp
    · cases b <;> simp [ih]

theorem handle_via_recording (b : RouteBuilder E S V) (h : Handler S V A)
    (e : E) (s : S) :
    b.handle h e s =
      match b.handle recordingHandler e s with
      | (s₃, Except.ok vals) => h vals s₃
      | (s₃, Except.error er) => (s₃, Except.error er) := by
  unfold RouteBuilder.handle
  rcases runMiddlewares b.middlewares e s with ⟨s₁, _ | er⟩ <;> dsimp only
  rcases runGuards b.guards e s₁ with ⟨s₂, _ | er⟩ <;> dsimp only
  rcases runExtractors b.extractors e s₂ with ⟨s₃, er | vals⟩ <;> dsimp only
  simp [recordingHandler]

theorem runExtractorsLength (xs : List (Extractor E S V)) (e : E) (s : S) :
    (runExtractors xs e s).2.map List.length =
      (runExtractors xs e s).2.map (fun _ => xs.length) := by
  induction xs generalizing s with
  | nil => rfl
  | cons x xs ih =>
    simp only [runExtractors]
    rcases x e s with ⟨s', er | v⟩ <;> dsimp only
    · rfl
    · rcases hxx : runExtractors xs e s' with ⟨s'', er₂ | vs⟩ <;> dsimp only
      · rfl
      · have h := ih s'
        rw [hxx] at h
        simp only [Except.map] at h ⊢
        simp at h ⊢
        omega

end Hexane

namespace ModTree

theorem stateGrows_refl (g : Graph n R P) (s : TravState n R P) :
    StateGrows g s s [] := by
  refine ⟨List.nodup_nil, by simp, by simp, by simp, by simp⟩

theorem stateGrows_trans {g : Graph n R P} {s s' s'' : TravState n R P}
    {o₁ o₂ : List (Fin n)} (h₁ : StateGrows g s s' o₁)
    (h₂ : StateGrows g s' s'' o₂) : StateGrows g s s'' (o₁ ++ o₂) := by
  obtain ⟨hn₁, hf₁, hv₁, hr₁, hp₁⟩ := h₁
  obtain ⟨hn₂, hf₂, hv₂, hr₂, hp₂⟩ := h₂
  refine ⟨?_, ?_, ?_, ?_, ?_⟩
  · rw [List.nodup_append]
    exact ⟨hn₁, hn₂, fun a ha hb => hf₂ a hb ((hv₁ a).mpr (Or.inl ha))⟩
  · intro i hi
    rcases List.mem_append.mp hi with hio | hio
    · exact hf₁ i hio
    · intro hvis
      exact hf₂ i hio ((hv₁ i).mpr (Or.inr hvis))
  · intro i
    rw [hv₂ i, hv₁ i, List.mem_append]
    tauto
  · rw [hr₂, hr₁, List.flatMap_append, List.append_assoc]
  · rw [hp₂, hp₁, List.flatMap_append, List.append_assoc]

theorem traverseImports_grows {g : Graph n R P}
    (trav : Fin n → TravState n R P → Option (TravState n R P))
    (htrav : ∀ m s s', trav m s = some s' → ∃ o, StateGrows g s s' o) :
    ∀ (ims : List (MImport n)) (s s' : TravState n R P),
      traverseImports trav ims s = some s' → ∃ o, StateGrows g s s' o := by
  intro ims
  induction ims with
  | nil =>
    intro s s' h
    obtain rfl : s = s' := by simpa [traverseImports] using h
    exact ⟨[], stateGrows_refl g s⟩
  | cons im ims ih =>
    intro s s' h
    cases im with
    | lazy f => exact ih s s' (by simpa [traverseImports] using h)
    | direct m =>
      simp only [traverseImports] at h
      cases htm : trav m s with
      | none => rw [htm] at h; simp at h
      | some t =>
        rw [htm] at h
        dsimp only at h
        obtain ⟨o₁, h₁⟩ := htrav m s t htm
        obtain ⟨o₂, h₂⟩ := ih t s' h
        exact ⟨o₁ ++ o₂, stateGrows_trans h₁ h₂⟩

theorem traverseModule_grows (g : Graph n R P) :
    ∀ (fuel : Nat) (m : Fin n) (s s' : TravState n R P),
      traverseModule g fuel m s = some s' → ∃ o, StateGrows g s s' o := by
  intro fuel
  induction fuel with
  | zero => intro m s s' h; simp [traverseModule] at h
  | succ fuel ih =>
    intro m s s' h
    simp only [traverseModule] at h
    by_cases hv : m ∈ s.visited
    · rw [if_pos hv] at h
      obtain rfl : s = s' := Option.some.inj h
      exact ⟨[], stateGrows_refl g s⟩
    · rw [if_neg hv] at h
      cases hti : traverseImports (fun m' u => traverseModule g fuel m' u)
          (g m).imports ⟨m :: s.visited, s.routes, s.providers⟩ with
      | none => rw [hti] at h; simp at h
      | some s2 =>
        rw [hti] at h
        dsimp only at h
        obtain rfl := (Option.some.inj h).symm
        obtain ⟨o, ho⟩ :=
          traverseImports_grows _ (fun m' u u' hu => ih m' u u' hu) _ _ _ hti
        obtain ⟨hno, hfo, hvo, hro, hpo⟩ := ho
        refine ⟨o ++ [m], ?_, ?_, ?_, ?_, ?_⟩
        · rw [List.nodup_append]
          refine ⟨hno, List.nodup_singleton m, fun a ha hb => ?_⟩
          rw [List.mem_singleton] at hb
          subst hb
          exact hfo a ha (List.mem_cons_self _ _)
        · intro i hi
          rcases List.mem_append.mp hi with hio | hio
          · intro hvis
            exact hfo i hio (List.mem_cons_of_mem _ hvis)
          · rw [List.mem_singleton] at hio
            subst hio
            exact hv
        · intro i
          rw [hvo i, List.mem_cons, List.mem_append, List.mem_singleton]
          tauto
        · simp only [hro, List.flatMap_append, List.append_assoc]
          simp
        · simp only [hpo, List.flatMap_append, List.append_assoc]
          simp

theorem unvisitedCount_le (s : TravState n R P) : unvisitedCount s ≤ n := by
  unfold unvisitedCount
  calc (Finset.univ.filter (fun i => i ∉ s.visited)).card
      ≤ (Finset.univ : Finset (Fin n)).card := Finset.card_filter_le _ _
    _ = n := Finset.card_fin n

theorem unvisitedCount_mono {s s' : TravState n R P}
    (h : ∀ i, i ∈ s.visited → i ∈ s'.visited) :
    unvisitedCount s' ≤ unvisitedCount s := by
  apply Finset.card_le_card
  intro i hi
  rw [Finset.mem_filter] at hi ⊢
  exact ⟨hi.1, fun hc => hi.2 (h i hc)⟩

theorem unvisitedCount_cons {s : TravState n R P} {m : Fin n}
    (hm : m ∉ s.visited) (r : List R) (p : List P) :
    unvisitedCount (⟨m :: s.visited, r, p⟩ : TravState n R P) <
      unvisitedCount s := by
  unfold unvisitedCount
  have hsub : (Finset.univ.filter (fun i : Fin n => i ∉ m :: s.visited)) =
      (Finset.univ.filter (fun i : Fin n => i ∉ s.visited)).erase m := by
    ext i
    simp only [Finset.mem_filter, Finset.mem_erase, Finset.mem_univ,
      true_and, List.mem_cons]
    tauto
  rw [hsub]
  have hmem : m ∈ Finset.univ.filter (fun i : Fin n => i ∉ s.visited) := by
    simp [hm]
  have hcard := Finset.card_erase_of_mem hmem
  have hpos : 0 < (Finset.univ.filter (fun i : Fin n => i ∉ s.visited)).card :=
    Finset.card_pos.mpr ⟨m, hmem⟩
  omega

theorem traverseImports_isSome
    (trav : Fin n → TravState n R P → Option (TravState n R P))
    (C : TravState n R P → Prop)
    (h1 : ∀ m s, C s → (trav m s).isSome)
    (h2 : ∀ m s s', trav m s = some s' → C s → C s') :
    ∀ (ims : List (MImport n)) (s : TravState n R P), C s →
      (traverseImports trav ims s).isSome := by
  intro ims
  induction ims with
  | nil => intro s hC; simp [traverseImports]
  | cons im ims ih =>
    intro s hC
    cases im with
    | lazy f => simpa [traverseImports] using ih s hC
    | direct m =>
      simp only [traverseImports]
      cases htm : trav m s with
      | none =>
        have := h1 m s hC
        rw [htm] at this
        simp at this
      | some t =>
        dsimp only
        exact ih t (h2 m s t htm hC)

theorem traverseModule_isSome (g : Graph n R P) :
    ∀ (fuel : Nat) (s : TravState n R P) (m : Fin n),
      unvisitedCount s < fuel → (traverseModule g fuel m s).isSome := by
  intro fuel
  induction fuel with
  | zero => intro s m h; exact absurd h (Nat.not_lt_zero _)
  | succ fuel ih =>
    intro s m h
    simp only [traverseModule]
    by_cases hv : m ∈ s.visited
    · rw [if_pos hv]; simp
    · rw [if_neg hv]
      have h1 : unvisitedCount (⟨m :: s.visited, s.routes, s.providers⟩ :
          TravState n R P) < fuel := by
        have := unvisitedCount_cons hv s.routes s.providers
        omega
      have hti := traverseImports_isSome
        (fun m' u => traverseModule g fuel m' u)
        (fun u => unvisitedCount u < fuel)
        (fun m' u hu => ih u m' hu)
        (fun m' u u' he hu => by
          obtain ⟨o, ho⟩ := traverseModule_grows g fuel m' u u' he
          have hm := unvisitedCount_mono
            (fun i hi => (ho.2.2.1 i).mpr (Or.inr hi))
          omega)
        (g m).imports _ h1
      cases hres : traverseImports (fun m' u => traverseModule g fuel m' u)
          (g m).imports ⟨m :: s.visited, s.routes, s.providers⟩ with
      | none => rw [hres] at hti; simp at hti
      | some s2 => dsimp only; simp

theorem traverseImports_congr
    {trav₁ trav₂ : Fin n → TravState n R P → Option (TravState n R P)}
    (h : ∀ m s, trav₁ m s = trav₂ m s) :
    ∀ (ims : List (MImport n)) (s : TravState n R P),
      traverseImports trav₁ ims s = traverseImports trav₂ ims s := by
  intro ims
  induction ims with
  | nil => intro s; rfl
  | cons im ims ih =>
    intro s
    cases im with
    | lazy f => simp [traverseImports, ih]
    | direct m =>
      simp only [traverseImports]
      rw [h m s]
      cases trav₂ m s with
      | none => rfl
      | some t => dsimp only; exact ih t

theorem traverseImports_filter_direct
    (trav : Fin n → TravState n R P → Option (TravState n R P)) :
    ∀ (ims : List (MImport n)) (s : TravState n R P),
      traverseImports trav
        (ims.filter (fun im => match im with
          | .direct _ => true
          | .lazy _ => false)) s = traverseImports trav ims s := by
  intro ims
  induction ims with
  | nil => intro s; rfl
  | cons im ims ih =>
    intro s
    cases im with
    | lazy f =>
      simp only [List.filter_cons]
      simpa [traverseImports] using ih s
    | direct m =>
      simp only [List.filter_cons]
      simp only [traverseImports]
      cases trav m s with
      | none => rfl
      | some t => dsimp only; exact ih t

theorem traverseModule_eraseLazy (g : Graph n R P) :
    ∀ (fuel : Nat) (m : Fin n) (s : TravState n R P),
      traverseModule (eraseLazy g) fuel m s = traverseModule g fuel m s := by
  intro fuel
  induction fuel with
  | zero => intro m s; rfl
  | succ fuel ih =>
    intro m s
    simp only [traverseModule]
    by_cases hv : m ∈ s.visited
    · rw [if_pos hv, if_pos hv]
    · rw [if_neg hv, if_neg hv]
      have hstep : traverseImports
          (fun m' u => traverseModule (eraseLazy g) fuel m' u)
          (eraseLazy g m).imports ⟨m :: s.visited, s.routes, s.providers⟩ =
          traverseImports (fun m' u => traverseModule g fuel m' u)
          (g m).imports ⟨m :: s.visited, s.routes, s.providers⟩ := by
        rw [traverseImports_congr (fun m' u => ih m' u)]
        exact traverseImports_filter_direct _ (g m).imports _
      rw [hstep]
      cases traverseImports (fun m' u => traverseModule g fuel m' u)
          (g m).imports ⟨m :: s.visited, s.routes, s.providers⟩ with
      | none => rfl
      | some s2 => dsimp only; rfl

end ModTree

namespace Hexane

theorem extractorsOf_append (ds₁ ds₂ : List (Decl E S V)) :
    extractorsOf (ds₁ ++ ds₂) = extractorsOf ds₁ ++ extractorsOf ds₂ := by
  induction ds₁ with
  | nil => rfl
  | cons d ds ih => cases d <;> simp [extractorsOf, ih]

/-- Claim C1, counterexample: in the pipeline declared as
`route().extract(demoExtractor).use(demoAction)` the Action declared second
(log tag `0`) executes before the Extractor declared first (log tag `1`):
the run succeeds with log `[0, 1]`, not the `[1, 0]` that strict
declaration-order interleaving requires. -/
theorem c1_declaration_order_counterexample :
    (applyDecls [Decl.extract demoExtractor,
      Decl.action demoAction]).handle demoHandler () [] =
      ([0, 1], Except.ok 1) ∧ ([0, 1] : List Nat) ≠ [1, 0] := by decide

/-- Claim C1 (amended): for every sealed pipeline and every request, the
steps run in phase order — all Actions in declaration order, then all
Guards in declaration order, then all Extractors in declaration order —
and the handler is invoked last with the buffered extracted values in
Extractor declaration order.  Steps of different kinds are not interleaved
by declaration position. -/
theorem c1_steps_run_in_phase_order (ds : List (Decl E S V))
    (h : Handler S V A) (e : E) (s : S) :
    (applyDecls ds).handle h e s =
      phaseRun (actionsOf ds) (guardsOf ds) (extractorsOf ds) h e s := by
  rw [handle_eq_phaseRun, applyDecls_middlewares, applyDecls_guards,
    applyDecls_extractors]

/-- Claim C4, counterexample: in the pipeline declared as
`route().guard(demoFailGuard).use(demoAction7)` the Action declared after
the failing Guard still executes (its log tag `7` appears — in fact before
the guard's tag `5`, because all middleware run before all guards). -/
theorem c4_action_after_guard_counterexample :
    (applyDecls [Decl.guard demoFailGuard,
      Decl.action demoAction7]).handle demoHandler () [] =
      ([7, 5], Except.error guardFailedErr) ∧
    (7 : Nat) ∈ ([7, 5] : List Nat) := by decide

/-- Claim C4 (amended): when a Guard fails on a request, the pipeline
aborts with `Error('Guard failed')` at that guard: the handler is never
invoked, no extractor runs, and guards after the failing one never run —
the result is independent of the handler, of the extractor array, and of
every guard after the failing one.  (Actions are not covered: all
middleware run before any guard, whatever the declaration order —
see the C1 counterexample.) -/
theorem c4_guard_failure_aborts
    (ms : List (Middleware E S)) (gs₁ gs₂ gs₂' : List (Guard E S))
    (gd : Guard E S) (xs xs' : List (Extractor E S V))
    (h h' : Handler S V A) (e : E) (s s₁ s₂ : S)
    (hm : runMiddlewares ms e s = (s₁, none))
    (hg : runGuards gs₁ e s₁ = (s₂, none))
    (hfail : (gd e s₂).2 = Except.ok false) :
    RouteBuilder.handle ⟨ms, gs₁ ++ gd :: gs₂, xs⟩ h e s =
      ((gd e s₂).1, Except.error guardFailedErr) ∧
    RouteBuilder.handle ⟨ms, gs₁ ++ gd :: gs₂, xs⟩ h e s =
      RouteBuilder.handle ⟨ms, gs₁ ++ gd :: gs₂', xs'⟩ h' e s := by
  have key : ∀ (gsx : List (Guard E S)),
      runGuards (gs₁ ++ gd :: gsx) e s₁ =
        ((gd e s₂).1, some guardFailedErr) := by
    intro gsx
    rw [runGuards_append, hg]
    dsimp only
    simp only [runGuards]
    rcases hgd : gd e s₂ with ⟨t, r⟩
    rw [hgd] at hfail
    dsimp only at hfail
    subst hfail
    rfl
  have hrun : ∀ (gsx : List (Guard E S)) (xs₀ : List (Extractor E S V))
      (h₀ : Handler S V A),
      RouteBuilder.handle ⟨ms, gs₁ ++ gd :: gsx, xs₀⟩ h₀ e s =
        ((gd e s₂).1, Except.error guardFailedErr) := by
    intro gsx xs₀ h₀
    unfold RouteBuilder.handle
    dsimp only
    rw [hm]
    dsimp only
    rw [key gsx]
  exact ⟨hrun gs₂ xs h, (hrun gs₂ xs h).trans (hrun gs₂' xs' h').symm⟩

/-- Claim C4, witness: the pipeline `route().guard(demoFailGuard)
.extract(demoExtractor)` sealed with `demoHandler` aborts with
`Error('Guard failed')` after the guard logged `5`, and its result equals
that of the same prefix with a different extractor array and handler. -/
theorem c4_guard_failure_aborts_witness :
    RouteBuilder.handle ⟨[], [demoFailGuard], [demoExtractor]⟩
      demoHandler () [] = ([5], Except.error guardFailedErr) ∧
    RouteBuilder.handle ⟨[], [demoFailGuard], [demoExtractor]⟩
      demoHandler () [] =
      RouteBuilder.handle ⟨[], [demoFailGuard], []⟩ constHandler99 () [] :=
  c4_guard_failure_aborts [] [] [] [] demoFailGuard [demoExtractor] []
    demoHandler constHandler99 () [] [] [] rfl rfl rfl

/-- Claim C5, counterexample: sealing is not freezing.  `sealedB` is a
builder already sealed over one extractor; calling `use(demoMw9)` on it
afterwards changes the behaviour of the sealed request handler (which reads
the builder's live step arrays at each invocation): the log gains the new
middleware's tag `9`. -/
theorem c5_post_seal_mutation_counterexample :
    RouteBuilder.handle sealedB demoHandler () [] = ([1], Except.ok 1) ∧
    RouteBuilder.handle (sealedB.use demoMw9) demoHandler () [] =
      ([9, 1], Except.ok 1) ∧
    RouteBuilder.handle (sealedB.use demoMw9) demoHandler () [] ≠
      RouteBuilder.handle sealedB demoHandler () [] := by decide

/-- Claim C5 (amended): attaching the terminal handler does not make the
pipeline immutable: `use` / `guard` / `extract` may still be called on the
builder afterwards, and because the handler returned by `handle` reads the
builder's step arrays at each invocation, the appended step takes effect in
the already-returned handler, which then behaves as the extended
pipeline. -/
theorem c5_builder_extendable_after_seal (b : RouteBuilder E S V)
    (m : Middleware E S) (g : Guard E S) (x : Extractor E S V)
    (h : Handler S V A) (e : E) (s : S) :
    (b.use m).handle h e s =
      phaseRun (b.middlewares ++ [m]) b.guards b.extractors h e s ∧
    (b.guard g).handle h e s =
      phaseRun b.middlewares (b.guards ++ [g]) b.extractors h e s ∧
    (b.extract x).handle h e s =
      phaseRun b.middlewares b.guards (b.extractors ++ [x]) h e s :=
  ⟨rfl, rfl, rfl⟩

/-- Claim C6, counterexample: `twoExtractB` accumulates two Extractors, yet
sealing it with `constHandler99` — a handler that ignores every positional
argument (the repository's own type-tests.ts marks such lower-arity
handlers as accepted: "TypeScript allows ignoring parameters") — is not
rejected at composition time, no `PipelineMismatch` condition exists
anywhere in the code, and at request time the handler is simply invoked
and its result returned. -/
theorem c6_mismatched_handler_counterexample :
    RouteBuilder.handle twoExtractB constHandler99 () [] =
      ([1, 2], Except.ok 99) ∧
    twoExtractB.extractors.length = 2 := by decide

/-- Claim C6 (amended): `handle` performs no signature check of any kind:
it accepts every handler (it is a total function and no `PipelineMismatch`
condition exists in the code), and whenever the phases succeed, the handler
— whatever its arity behaviour — is invoked at request time with the full
extracted value list.  Signature conformance is only TypeScript's
compile-time inference, which itself accepts handlers that ignore
parameters. -/
theorem c6_no_signature_check (b : RouteBuilder E S V) (h : Handler S V A)
    (e : E) (s s₃ : S) (vals : List V)
    (hok : b.handle recordingHandler e s = (s₃, Except.ok vals)) :
    b.handle h e s = h vals s₃ := by
  rw [handle_via_recording b h e s, hok]

/-- Claim C6, witness: the two-extractor pipeline sealed with the
argument-ignoring `constHandler99` invokes it at request time with the two
extracted values, returning its result. -/
theorem c6_no_signature_check_witness :
    RouteBuilder.handle twoExtractB constHandler99 () [] =
      ([1, 2], Except.ok 99) :=
  c6_no_signature_check twoExtractB constHandler99 () [] [1, 2] [10, 20]
    (by decide)

/-- Claim C7: the positional argument list passed to the handler is exactly
the list of values produced by the declared Extractors in declaration
order: inserting an Action or a Guard at any declaration position leaves
the pipeline's Extractor sequence unchanged, the accumulated `extractors`
array is the declared Extractors in order, every handler receives exactly
the values the recording handler observes (so Guards and Actions never
contribute a value), and the extracted list always has exactly one entry
per extractor. -/
theorem c7_handler_args_are_extractor_outputs
    (ds₁ ds₂ : List (Decl E S V)) (m : Middleware E S) (g : Guard E S)
    (b : RouteBuilder E S V) (h : Handler S V A) (e : E) (s : S)
    (xs : List (Extractor E S V)) :
    extractorsOf (ds₁ ++ Decl.action m :: ds₂) = extractorsOf (ds₁ ++ ds₂) ∧
    extractorsOf (ds₁ ++ Decl.guard g :: ds₂) = extractorsOf (ds₁ ++ ds₂) ∧
    (applyDecls ds₁).extractors = extractorsOf ds₁ ∧
    (b.handle h e s =
      match b.handle recordingHandler e s with
      | (s₃, Except.ok vals) => h vals s₃
      | (s₃, Except.error er) => (s₃, Except.error er)) ∧
    (runExtractors xs e s).2.map List.length =
      (runExtractors xs e s).2.map (fun _ => xs.length) := by
  refine ⟨?_, ?_, applyDecls_extractors ds₁, handle_via_recording b h e s,
    runExtractorsLength xs e s⟩
  · rw [extractorsOf_append, extractorsOf_append]
    rfl
  · rw [extractorsOf_append, extractorsOf_append]
    rfl

/-- Claim C8, counterexample: a pipeline with no guards and one extractor
that throws `Error('boom')` surfaces exactly that error to the caller: the
surfaced condition is the raw cause itself, not an `ExtractionFailed`
wrapper carrying it (no such wrapper is ever constructed by the code). -/
theorem c8_no_extraction_failed_wrapper_counterexample :
    RouteBuilder.handle ⟨[], [], [boomExtractor]⟩ constHandler99 () [] =
      ([], Except.error (PipeErr.js "boom")) ∧
    PipeErr.isExtractionFailedTag (PipeErr.js "boom") = false := by decide

/-- Claim C8 (amended): for every pipeline with no Guards whose extractor
phase throws, the handler is never invoked (the result is independent of
the handler) and the extractor's own error is surfaced unchanged to the
caller of the pipeline. -/
theorem c8_extractor_error_surfaced_raw (b : RouteBuilder E S V)
    (h : Handler S V A) (e : E) (s s₁ : S) (er : PipeErr)
    (hng : b.guards = [])
    (hm : runMiddlewares b.middlewares e s = (s₁, none))
    (hx : (runExtractors b.extractors e s₁).2 = Except.error er) :
    b.handle h e s = ((runExtractors b.extractors e s₁).1, Except.error er) := by
  unfold RouteBuilder.handle
  rw [hm]
  dsimp only
  rw [hng]
  simp only [runGuards]
  rcases hxe : runExtractors b.extractors e s₁ with ⟨s₃, r⟩
  rw [hxe] at hx
  dsimp only at hx
  subst hx
  rfl

/-- Claim C8, witness: the no-guard pipeline whose only extractor throws
`Error('boom')` never invokes `demoHandler` and surfaces `Error('boom')`
itself. -/
theorem c8_extractor_error_surfaced_raw_witness :
    RouteBuilder.handle ⟨[], [], [boomExtractor]⟩ demoHandler () [] =
      ([], Except.error (PipeErr.js "boom")) :=
  c8_extractor_error_surfaced_raw ⟨[], [], [boomExtractor]⟩ demoHandler ()
    [] [] (PipeErr.js "boom") rfl rfl rfl

end Hexane

namespace ModTree

/-- Claim C2, counterexample: for the purely eager two-cycle
`A.imports = [B]`, `B.imports = [A]` with root `A`, resolution does not
fail: `traverseModule` silently skips the already-visited unit, no
`CircularImport` condition exists anywhere in core.ts (the traversal has no
error channel at all), and a full Resolved Application is produced — route
table `[GET /b, GET /a]`, both units visited. -/
theorem c2_eager_cycle_counterexample :
    createH3AppFromModule gEagerCycle 0 =
      some ⟨[1, 0], ["GET /b", "GET /a"], []⟩ := by decide

/-- Claim C2 (amended): for every two-unit eager cycle (arbitrary routes
and providers on each side) with root `A`, resolution succeeds silently:
the `visited` set breaks the cycle at the re-entered unit, and the Resolved
Application contains each unit's routes and providers exactly once, imports
first (`B` before `A`).  No diagnostic of any kind is emitted. -/
theorem c2_eager_cycle_silently_resolved (R P : Type) (ra rb : List R)
    (pa pb : List P) :
    createH3AppFromModule (mkEagerCycle ra pa rb pb) 0 =
      some ⟨[1, 0], rb ++ ra, pb ++ pa⟩ := rfl

/-- Claim C3, counterexample: for the lazy cycle of spec §8
(`A.imports = [() => B]`, `B.imports = [() => A]`, root `A`), resolution
succeeds but the lazy import function is never invoked and its target `B`
is never traversed: the Resolved Application contains only `A`'s route and
provider; `B`'s route `GET /b` is absent. -/
theorem c3_lazy_import_counterexample :
    createH3AppFromModule gLazyCycle 0 =
      some ⟨[0], ["GET /a"], ["P_a"]⟩ ∧
    "GET /b" ∉ (["GET /a"] : List String) := by decide

/-- Claim C3 (amended): the resolver never invokes lazy (function) import
entries and never traverses their targets: resolution of any graph is
identical, at every fuel, module and state, to resolution of the graph
with all lazy entries deleted.  A lazy target's routes and providers
appear in the Resolved Application only if some eager path reaches it. -/
theorem c3_lazy_imports_never_invoked (n : Nat) (R P : Type)
    (g : Graph n R P) :
    (∀ (fuel : Nat) (m : Fin n) (s : TravState n R P),
      traverseModule g fuel m s = traverseModule (eraseLazy g) fuel m s) ∧
    (∀ rootModule : Fin n,
      createH3AppFromModule g rootModule =
        createH3AppFromModule (eraseLazy g) rootModule) := by
  constructor
  · intro fuel m s
    exact (traverseModule_eraseLazy g fuel m s).symm
  · intro rootModule
    exact (traverseModule_eraseLazy g (n + 1) rootModule _).symm

/-- Claim C9: the resolved route table is in first-discovery order under
depth-first traversal.  Concretely, with `A.imports = [B]`,
`A.routes = [GET /a]`, `B.imports = []`, `B.routes = [GET /b]`, resolving
root `A` yields `[GET /b, GET /a]`.  Generally, flattening an unvisited
unit first runs the import loop over the unit's `imports` array (in
declaration order) and only then appends the unit's own routes and
providers, so everything contributed by the imports extends the previous
table and precedes the unit's own routes. -/
theorem c9_route_table_first_discovery_order :
    createH3AppFromModule gAcyclic 0 =
      some ⟨[1, 0], ["GET /b", "GET /a"], []⟩ ∧
    (∀ (n : Nat) (R P : Type) (g : Graph n R P) (fuel : Nat) (m : Fin n)
      (s s' : TravState n R P), m ∉ s.visited →
      traverseModule g (fuel + 1) m s = some s' →
      ∃ t : TravState n R P,
        traverseImports (fun m' u => traverseModule g fuel m' u) (g m).imports
          ⟨m :: s.visited, s.routes, s.providers⟩ = some t ∧
        s'.routes = t.routes ++ (g m).routes ∧
        s'.providers = t.providers ++ (g m).providers ∧
        ∃ contributed, t.routes = s.routes ++ contributed) := by
  constructor
  · decide
  · intro n R P g fuel m s s' hv h
    simp only [traverseModule] at h
    rw [if_neg hv] at h
    cases hti : traverseImports (fun m' u => traverseModule g fuel m' u)
        (g m).imports ⟨m :: s.visited, s.routes, s.providers⟩ with
    | none => rw [hti] at h; simp at h
    | some t =>
      rw [hti] at h
      dsimp only at h
      obtain rfl := (Option.some.inj h).symm
      obtain ⟨o, ho⟩ := traverseImports_grows _
        (fun m' u u' hu => traverseModule_grows g fuel m' u u' hu) _ _ _ hti
      exact ⟨t, rfl, rfl, rfl, o.flatMap (fun i => (g i).routes),
        ho.2.2.2.1⟩

/-- Claim C9, witness: instantiating the general part at the concrete
acyclic graph, root `A`, fuel 2, empty initial state: the import loop
yields the intermediate table `[GET /b]`, which the root's own route
extends to `[GET /b, GET /a]`. -/
theorem c9_route_table_first_discovery_order_witness :
    ∃ t : TravState 2 String String,
      traverseImports (fun m' u => traverseModule gAcyclic 2 m' u)
        (gAcyclic 0).imports ⟨[0], [], []⟩ = some t ∧
      (⟨[1, 0], ["GET /b", "GET /a"], []⟩ : TravState 2 String String).routes =
        t.routes ++ (gAcyclic 0).routes ∧
      (⟨[1, 0], ["GET /b", "GET /a"], []⟩ :
        TravState 2 String String).providers =
        t.providers ++ (gAcyclic 0).providers ∧
      ∃ contributed, t.routes = ([] : List String) ++ contributed :=
  c9_route_table_first_discovery_order.2 2 String String gAcyclic 2 0
    ⟨[], [], []⟩ ⟨[1, 0], ["GET /b", "GET /a"], []⟩ (by decide) (by decide)

/-- Claim C10: for every finite module graph — cyclic graphs and diamond
sharing included — resolution terminates (the fuel bound `n + 1`, which
models the source's recursion, is never exhausted) and each distinct
module instance is flattened at most once: the output is generated by a
duplicate-free list of module ids, so each unit's routes and providers are
appended to the output at most once. -/
theorem c10_resolution_terminates_each_unit_once (n : Nat) (R P : Type)
    (g : Graph n R P) (rootModule : Fin n) :
    ∃ (s' : TravState n R P) (ord : List (Fin n)),
      createH3AppFromModule g rootModule = some s' ∧
      ord.Nodup ∧
      s'.routes = ord.flatMap (fun i => (g i).routes) ∧
      s'.providers = ord.flatMap (fun i => (g i).providers) := by
  have hlt : unvisitedCount (⟨[], [], []⟩ : TravState n R P) < n + 1 := by
    have := unvisitedCount_le (⟨[], [], []⟩ : TravState n R P)
    omega
  have hs := traverseModule_isSome g (n + 1) ⟨[], [], []⟩ rootModule hlt
  cases hres : traverseModule g (n + 1) rootModule ⟨[], [], []⟩ with
  | none => rw [hres] at hs; simp at hs
  | some s' =>
    obtain ⟨o, ho⟩ := traverseModule_grows g (n + 1) rootModule _ _ hres
    exact ⟨s', o, hres, ho.1, by simpa using ho.2.2.2.1,
      by simpa using ho.2.2.2.2⟩

end ModTree
